import Mathlib

/-!
Verification of the dataflow node-graph / propagation engine.

We shallowly embed the two node kinds of the library (`InputNode` from
src/lib/InputNode.js and `DependentNode` from the DependentNode source file)
as a heap of nodes addressed by natural-number ids, together with a
fuel-indexed interpreter for the mutually recursive operations
`value()`, `_update()` (recompute), `update()`, and the output-notification
loop.  JavaScript's `undefined` (the absent-value sentinel) is modelled as
`Option.none`; a node value that is definitely present is `some v`.
Exceptions are modelled with an explicit error result; since JavaScript
exceptions do not roll back mutations, every operation returns the
post-state heap together with either a normal result or an error.
-/

namespace Dataflow

/-- Errors of the library, as logical kinds.
`undefinedValue` is the TypeError thrown by `util.failOnUndefinedValue`;
`notANode` is the TypeError thrown by `util.failNotANode`;
`fnThrown` models a user compute function throwing;
`notImplemented` is the `NotImplementedError` thrown by
`DataflowNode.prototype.destroy`;
`nodeDestroyed` is the NodeDestroyedError named by the spec (never raised
by the code, present so statements can mention it);
`methodMissing` is the TypeError JavaScript raises when a method such as
`_addOutput` or `value` is invoked on a value that does not have it;
`fuelOut` is an artifact of the fuel-indexed interpreter, not a program
error. -/
inductive Err where
  | undefinedValue
  | notANode
  | fnThrown
  | notImplemented
  | nodeDestroyed
  | methodMissing
  | fuelOut
deriving DecidableEq, Repr

/-- Result of invoking a user compute function: it can throw, or return a
JavaScript value (`none` = it returned `undefined`). -/
inductive FnRes (V : Type) where
  | throws
  | ret (v : Option V)

/-- A JavaScript value appearing in an inputs list: either a reference to a
node in the heap, or a raw non-node value (`none` = the raw value is
`undefined`). -/
inductive JRef (V : Type) where
  | node (id : Nat)
  | raw (v : Option V)

/-- The closure state of a `DependentNode` (DependentNode source):
`_f`, `_inputs`, `_outputs`, `_isEager`, `_isDirty`, `_value`. -/
structure DepData (V : Type) where
  f : List V → FnRes V
  inputs : List (JRef V)
  outputs : List Nat
  isEager : Bool
  isDirty : Bool
  value : Option V

/-- A node of the graph: an `InputNode` (closure state `_value`, `_outputs`)
or a `DependentNode`. -/
inductive Node (V : Type) where
  | inp (value : V) (outputs : List Nat)
  | dep (d : DepData V)

/-- The heap of all allocated nodes, addressed by position. -/
abbrev Heap (V : Type) := List (Node V)

variable {V : Type}

def getNode (st : Heap V) (id : Nat) : Option (Node V) := st.get? id

def setNode (st : Heap V) (id : Nat) (n : Node V) : Heap V := st.set id n

/-- src/lib/util.js `isNode`: a stub that returns `true` for every
argument (its body is `// TODO Check if the argument is a Node` followed by
`return true`). -/
def isNode (_ : JRef V) : Bool := true

/-- Underscore's `_(_outputs).without(output)`: returns a copy of the list
with every element identical to `output` removed. -/
def without (l : List Nat) (x : Nat) : List Nat := l.filter (fun y => y ≠ x)

mutual

/-- `value()`.  For an `InputNode` (src/lib/InputNode.js) it returns
`_value`.  For a `DependentNode` it is
`if (_isDirty) { _update(); } return _value;`. -/
def nodeValue (fuel : Nat) (st : Heap V) (id : Nat) :
    Heap V × Except Err (Option V) :=
  match fuel with
  | 0 => (st, .error .fuelOut)
  | fuel + 1 =>
    match getNode st id with
    | none => (st, .error .methodMissing)
    | some (.inp v _) => (st, .ok (some v))
    | some (.dep d) =>
      if d.isDirty then
        match depRecompute fuel st id with
        | (st1, .error e) => (st1, .error e)
        | (st1, .ok _) =>
          match getNode st1 id with
          | some (.dep d1) => (st1, .ok d1.value)
          | _ => (st1, .error .methodMissing)
      else (st, .ok d.value)

/-- `_update()` of `DependentNode`: clear `_isDirty` first, read every
input's `value()` in order failing on the sentinel, apply `_f`, fail
(after storing `undefined` into `_value`) if the result is the sentinel,
otherwise store the result into `_value`. -/
def depRecompute (fuel : Nat) (st : Heap V) (id : Nat) :
    Heap V × Except Err Unit :=
  match fuel with
  | 0 => (st, .error .fuelOut)
  | fuel + 1 =>
    match getNode st id with
    | some (.dep d) =>
      let st1 := setNode st id (.dep { d with isDirty := false })
      match readInputs fuel st1 d.inputs with
      | (st2, .error e) => (st2, .error e)
      | (st2, .ok args) =>
        match d.f args with
        | .throws => (st2, .error .fnThrown)
        | .ret none =>
          match getNode st2 id with
          | some (.dep d2) =>
            (setNode st2 id (.dep { d2 with value := none }),
             .error .undefinedValue)
          | _ => (st2, .error .methodMissing)
        | .ret (some r) =>
          match getNode st2 id with
          | some (.dep d2) =>
            (setNode st2 id (.dep { d2 with value := some r }), .ok ())
          | _ => (st2, .error .methodMissing)
    | _ => (st, .error .methodMissing)

/-- The input-collection loop of `_update()`:
`const value = node.value(); if (value === undefined) failOnUndefinedValue();
inputValues.push(value);`.  Invoking `value()` on a raw non-node element
(possible because `util.isNode` is a constant-true stub) raises a
TypeError, modelled as `methodMissing`. -/
def readInputs (fuel : Nat) (st : Heap V) (refs : List (JRef V)) :
    Heap V × Except Err (List V) :=
  match fuel with
  | 0 => (st, .error .fuelOut)
  | fuel + 1 =>
    match refs with
    | [] => (st, .ok [])
    | r :: rest =>
      match r with
      | .raw _ => (st, .error .methodMissing)
      | .node i =>
        match nodeValue fuel st i with
        | (st1, .error e) => (st1, .error e)
        | (st1, .ok none) => (st1, .error .undefinedValue)
        | (st1, .ok (some x)) =>
          match readInputs fuel st1 rest with
          | (st2, .error e) => (st2, .error e)
          | (st2, .ok xs) => (st2, .ok (x :: xs))

/-- `update(...)`.  For an `InputNode`, `update(newValue)` fails on the
sentinel, assigns `_value`, then notifies every output via `update()`.
For a `DependentNode`, `update()` ignores its argument, sets
`_isDirty = true`, recomputes at once when `_isEager`, then notifies every
output.  `arg = none` models a call with no argument (`undefined`). -/
def nodeUpdate (fuel : Nat) (st : Heap V) (id : Nat) (arg : Option V) :
    Heap V × Except Err Unit :=
  match fuel with
  | 0 => (st, .error .fuelOut)
  | fuel + 1 =>
    match getNode st id with
    | none => (st, .error .methodMissing)
    | some (.inp _ outs) =>
      match arg with
      | none => (st, .error .undefinedValue)
      | some w =>
        let st1 := setNode st id (.inp w outs)
        updateOutputs fuel st1 outs
    | some (.dep d) =>
      let st1 := setNode st id (.dep { d with isDirty := true })
      if d.isEager then
        match depRecompute fuel st1 id with
        | (st2, .error e) => (st2, .error e)
        | (st2, .ok _) => updateOutputs fuel st2 d.outputs
      else
        updateOutputs fuel st1 d.outputs

/-- The notification loop `for (const output of _outputs) output.update();`
(each output is notified with no argument). -/
def updateOutputs (fuel : Nat) (st : Heap V) (outs : List Nat) :
    Heap V × Except Err Unit :=
  match fuel with
  | 0 => (st, .error .fuelOut)
  | fuel + 1 =>
    match outs with
    | [] => (st, .ok ())
    | o :: rest =>
      match nodeUpdate fuel st o none with
      | (st1, .error e) => (st1, .error e)
      | (st1, .ok _) => updateOutputs fuel st1 rest

end

/-- `lazy()`: a no-op for an `InputNode`; sets `_isEager = false` for a
`DependentNode`. -/
def nodeLazy (st : Heap V) (id : Nat) : Heap V × Except Err Unit :=
  match getNode st id with
  | none => (st, .error .methodMissing)
  | some (.inp _ _) => (st, .ok ())
  | some (.dep d) => (setNode st id (.dep { d with isEager := false }), .ok ())

/-- `eager()`: a no-op for an `InputNode`; sets `_isEager = true` and
immediately runs `_update()` for a `DependentNode`. -/
def nodeEager (fuel : Nat) (st : Heap V) (id : Nat) : Heap V × Except Err Unit :=
  match getNode st id with
  | none => (st, .error .methodMissing)
  | some (.inp _ _) => (st, .ok ())
  | some (.dep d) =>
    let st1 := setNode st id (.dep { d with isEager := true })
    depRecompute fuel st1 id

/-- `_addOutput(newOutput)`: `if (!util.isNode(newOutput)) util.failNotANode();
_outputs.push(newOutput);`.  The guard is dead because `isNode` is the
constant-true stub. -/
def nodeAddOutput (st : Heap V) (id : Nat) (newOut : Nat) :
    Heap V × Except Err Unit :=
  match getNode st id with
  | none => (st, .error .methodMissing)
  | some (.inp v outs) =>
    if isNode (JRef.node (V := V) newOut) then
      (setNode st id (.inp v (outs ++ [newOut])), .ok ())
    else (st, .error .notANode)
  | some (.dep d) =>
    if isNode (JRef.node (V := V) newOut) then
      (setNode st id (.dep { d with outputs := d.outputs ++ [newOut] }), .ok ())
    else (st, .error .notANode)

/-- `_removeOutput(output)`: `_outputs = _(_outputs).without(output);`. -/
def nodeRemoveOutput (st : Heap V) (id : Nat) (out : Nat) :
    Heap V × Except Err Unit :=
  match getNode st id with
  | none => (st, .error .methodMissing)
  | some (.inp v outs) => (setNode st id (.inp v (without outs out)), .ok ())
  | some (.dep d) =>
    (setNode st id (.dep { d with outputs := without d.outputs out }), .ok ())

/-- `DataflowNode.prototype.destroy` (src/lib/DataflowNode.js lines 81-83):
`throw new errors.NotImplementedError('DataflowNode#destroy');`.
The wrapped node classes define no `destroy` of their own. -/
def destroyOp (st : Heap V) (_id : Nat) : Heap V × Except Err Unit :=
  (st, .error .notImplemented)

/-- `new InputNode(initialValue)`: fails on the sentinel, otherwise
allocates a node with `_value = initialValue` and `_outputs = []`. -/
def mkInputNode (st : Heap V) (initialValue : Option V) :
    Heap V × Except Err Nat :=
  match initialValue with
  | none => (st, .error .undefinedValue)
  | some v => (st ++ [.inp v []], .ok st.length)

/-- The `dataflow(value)` entry point (src/lib/dataflow.js): wraps a raw
value in a new `InputNode`. -/
def dataflowFn (st : Heap V) (value : Option V) : Heap V × Except Err Nat :=
  mkInputNode st value

/-- The `inputs` constructor argument of `DependentNode`: an array, or a
single node/value. -/
inductive InputsArg (V : Type) where
  | arr (l : List (JRef V))
  | one (r : JRef V)

/-- `_inputs.push(input)` on the dependent node under construction. -/
def depPushInput (st : Heap V) (id : Nat) (r : JRef V) : Heap V :=
  match getNode st id with
  | some (.dep d) => setNode st id (.dep { d with inputs := d.inputs ++ [r] })
  | _ => st

/-- Wiring of one element of `inputs` in the `DependentNode` constructor:
`if (util.isNode(input)) { _inputs.push(input); input._addOutput(this); }
else { const newInput = new InputNode(input); _inputs.push(newInput);
newInput._addOutput(this); }`.  Because `isNode` is the constant-true
stub, the else branch (promotion of a raw value to a new `InputNode`) is
dead code: a raw element is pushed as-is and `raw._addOutput(this)` then
raises a TypeError (`methodMissing`). -/
def wireOne (st : Heap V) (newId : Nat) (input : JRef V) :
    Heap V × Except Err Unit :=
  if isNode input then
    let st1 := depPushInput st newId input
    match input with
    | .node i => nodeAddOutput st1 i newId
    | .raw _ => (st1, .error .methodMissing)
  else
    match input with
    | .raw v =>
      match mkInputNode st v with
      | (st', .error e) => (st', .error e)
      | (st', .ok i) =>
        let st2 := depPushInput st' newId (.node i)
        nodeAddOutput st2 i newId
    | .node _ => (st, .error .notANode)

/-- The wiring loop over an array-shaped `inputs` argument. -/
def wireList (st : Heap V) (newId : Nat) (l : List (JRef V)) :
    Heap V × Except Err Unit :=
  match l with
  | [] => (st, .ok ())
  | r :: rest =>
    match wireOne st newId r with
    | (st1, .error e) => (st1, .error e)
    | (st1, .ok _) => wireList st1 newId rest

/-- `new DependentNode(f, inputs, isEager)`: allocates the closure state
(`_isEager = !!isEager`, `_isDirty = true`, `_value` undefined), wires the
inputs, and runs `this.eager()` at construction time when the eager flag
is passed.  The `_.isFunction(f)` guard is enforced by typing. -/
def mkDependentNode (fuel : Nat) (st : Heap V) (f : List V → FnRes V)
    (inputs : InputsArg V) (isEager : Bool) : Heap V × Except Err Nat :=
  let newId := st.length
  let st0 := st ++ [Node.dep ⟨f, [], [], isEager, true, none⟩]
  let wired :=
    match inputs with
    | .arr l => wireList st0 newId l
    | .one r => wireOne st0 newId r
  match wired with
  | (st1, .error e) => (st1, .error e)
  | (st1, .ok _) =>
    if isEager then
      match depRecompute fuel st1 newId with
      | (st2, .error e) => (st2, .error e)
      | (st2, .ok _) => (st2, .ok newId)
    else (st1, .ok newId)

/-- `then(f)` (src/lib/DataflowNode.js lines 101-103):
`new DataflowNode(new DependentNode(f, [this._node]))`. -/
def thenOp (fuel : Nat) (st : Heap V) (id : Nat) (f : List V → FnRes V) :
    Heap V × Except Err Nat :=
  mkDependentNode fuel st f (.arr [.node id]) false

/-- Lifts a pure unary function to the compute-function calling convention
(`_f.apply(_f, inputValues)` with a single collected input value). -/
def unary (g : V → V) : List V → FnRes V := fun args =>
  match args with
  | [v] => .ret (some (g v))
  | _ => .throws

/-- Builds `dataflow(v).then(g1).then(g2)...` chaining each `then` onto the
previously created node. -/
def buildChainAux (st : Heap V) (id : Nat) (gs : List (V → V)) : Heap V :=
  match gs with
  | [] => st
  | g :: rest =>
    match thenOp 0 st id (unary g) with
    | (st1, .ok nid) => buildChainAux st1 nid rest
    | (st1, .error _) => st1

def buildChain (v : V) (gs : List (V → V)) : Heap V :=
  buildChainAux [Node.inp v []] 0 gs

/-! ## Basic heap lemmas -/

theorem length_setNode (st : Heap V) (i : Nat) (n : Node V) :
    (setNode st i n).length = st.length := List.length_set st i n

theorem getNode_lt_length {st : Heap V} {i : Nat} {n : Node V}
    (h : getNode st i = some n) : i < st.length := by
  by_contra hlt
  rw [getNode, List.get?_eq_none.mpr (by omega)] at h
  exact Option.noConfusion h

theorem getNode_setNode_self {st : Heap V} {i : Nat} (n : Node V)
    (h : i < st.length) : getNode (setNode st i n) i = some n := by
  rw [getNode, setNode, List.get?_set_eq, List.get?_eq_get h]
  rfl

theorem getNode_setNode_ne (st : Heap V) {i j : Nat} (n : Node V)
    (h : i ≠ j) : getNode (setNode st i n) j = getNode st j := by
  rw [getNode, setNode, List.get?_set_ne _ _ h]
  rfl

/-! ## The observable outputs list of a node -/

def outputsOf : Node V → List Nat
  | .inp _ o => o
  | .dep d => d.outputs

def setOutputs : Node V → List Nat → Node V
  | .inp v _, o => .inp v o
  | .dep d, o => .dep { d with outputs := o }

/-- A heap holds a source node iff some entry is an `InputNode`. -/
def hasSourceNode (st : Heap V) : Bool :=
  st.any fun n =>
    match n with
    | .inp _ _ => true
    | .dep _ => false

/-! ## Concrete scenarios used by counterexamples and witnesses -/

/-- A pure compute function that yields `10` on input value `1` and
returns the absent sentinel (`undefined`) on every other input value. -/
def cexF : List Int → FnRes Int := fun args =>
  match args with
  | [1] => .ret (some 10)
  | _ => .ret none

/-- `x = dataflow(1); y = new DependentNode(cexF, [x])`. -/
def cexHeap0 : Heap Int :=
  (mkDependentNode 10 (dataflowFn [] (some 1)).1 cexF (.arr [.node 0]) false).1

/-- After `y.value()` (caches `10`, clears dirty). -/
def cexHeap1 : Heap Int := (nodeValue 10 cexHeap0 1).1

/-- After `x.update(2)` (marks `y` dirty). -/
def cexHeap2 : Heap Int := (nodeUpdate 10 cexHeap1 0 (some 2)).1

/-- After the failing `y.value()` (recompute returns the sentinel: the
error surfaces with `y`'s dirty flag cleared and its cache overwritten
with the sentinel). -/
def cexHeap3 : Heap Int := (nodeValue 10 cexHeap2 1).1

/-- A trivial pure compute function. -/
def c5f : List Int → FnRes Int := fun _ => .ret (some 0)

/-- A source node whose outputs list contains the same node twice. -/
def c9Heap : Heap Int := [.inp 5 [1, 1]]

/-! ## Clean-flag preservation by the value family

`value()`, `_update()` and the input-collection loop never set a dirty
flag to `true` (only `update()` does); moreover a dependent node that is
clean before such a call is left entirely unchanged by it — except for
the node `_update()` was invoked on itself, whose cache is rewritten. -/

theorem clean_preserved :
    ∀ (fuel : Nat) (V : Type),
      (∀ (st : Heap V) (id j : Nat) (d : DepData V),
        getNode st j = some (.dep d) → d.isDirty = false →
        getNode (nodeValue fuel st id).1 j = some (.dep d)) ∧
      (∀ (st : Heap V) (id j : Nat) (d : DepData V), j ≠ id →
        getNode st j = some (.dep d) → d.isDirty = false →
        getNode (depRecompute fuel st id).1 j = some (.dep d)) ∧
      (∀ (st : Heap V) (refs : List (JRef V)) (j : Nat) (d : DepData V),
        getNode st j = some (.dep d) → d.isDirty = false →
        getNode (readInputs fuel st refs).1 j = some (.dep d)) := by
  intro fuel
  induction fuel with
  | zero =>
    intro V
    refine ⟨?_, ?_, ?_⟩
    · intro st id j d hj _; simpa [nodeValue] using hj
    · intro st id j d _ hj _; simpa [depRecompute] using hj
    · intro st refs j d hj _; simpa [readInputs] using hj
  | succ fuel ih =>
    intro V
    obtain ⟨ihV, ihR, ihI⟩ := ih V
    refine ⟨?_, ?_, ?_⟩
    · -- nodeValue
      intro st id j d hj hd
      cases hget : getNode st id with
      | none => simpa [nodeValue, hget] using hj
      | some n =>
        cases n with
        | inp v o => simpa [nodeValue, hget] using hj
        | dep d0 =>
          cases hd0 : d0.isDirty with
          | false => simpa [nodeValue, hget, hd0] using hj
          | true =>
            have hne : j ≠ id := by
              intro hji
              rw [hji, hget] at hj
              injection hj with hj'
              injection hj' with hj''
              rw [← hj''] at hd
              rw [hd0] at hd
              exact Bool.noConfusion hd
            have hrec := ihR st id j d hne hj hd
            simp only [nodeValue, hget, hd0, if_true]
            rcases hr : depRecompute fuel st id with ⟨st1, r⟩
            rw [hr] at hrec
            cases r with
            | error e => simpa using hrec
            | ok u =>
              cases hg1 : getNode st1 id with
              | none => simpa [hg1] using hrec
              | some n1 => cases n1 <;> simpa [hg1] using hrec
    · -- depRecompute
      intro st id j d hne hj hd
      cases hget : getNode st id with
      | none => simpa [depRecompute, hget] using hj
      | some n =>
        cases n with
        | inp v o => simpa [depRecompute, hget] using hj
        | dep d0 =>
          have hj1 : getNode (setNode st id (.dep { d0 with isDirty := false })) j
              = some (.dep d) := by
            rw [getNode_setNode_ne _ _ (fun h => hne h.symm)]; exact hj
          have hrd := ihI (setNode st id (.dep { d0 with isDirty := false }))
            d0.inputs j d hj1 hd
          simp only [depRecompute, hget]
          rcases hr : readInputs fuel
              (setNode st id (.dep { d0 with isDirty := false })) d0.inputs
            with ⟨st2, r2⟩
          rw [hr] at hrd
          cases r2 with
          | error e => simpa using hrd
          | ok args =>
            cases hfr : d0.f args with
            | throws => simp only [hfr]; simpa using hrd
            | ret v =>
              cases v with
              | none =>
                simp only [hfr]
                cases hg2 : getNode st2 id with
                | none => simpa [hg2] using hrd
                | some n2 =>
                  cases n2 with
                  | inp w o => simpa [hg2] using hrd
                  | dep d2 =>
                    simp only [hg2]
                    rw [getNode_setNode_ne _ _ (fun h => hne h.symm)]
                    exact hrd
              | some r =>
                simp only [hfr]
                cases hg2 : getNode st2 id with
                | none => simpa [hg2] using hrd
                | some n2 =>
                  cases n2 with
                  | inp w o => simpa [hg2] using hrd
                  | dep d2 =>
                    simp only [hg2]
                    rw [getNode_setNode_ne _ _ (fun h => hne h.symm)]
                    exact hrd
    · -- readInputs
      intro st refs j d hj hd
      cases refs with
      | nil => simpa [readInputs] using hj
      | cons r rest =>
        cases r with
        | raw v => simpa [readInputs] using hj
        | node i =>
          have h1 := ihV st i j d hj hd
          simp only [readInputs]
          rcases hv : nodeValue fuel st i with ⟨st1, rv⟩
          rw [hv] at h1
          cases rv with
          | error e => simpa using h1
          | ok v =>
            cases v with
            | none => simpa using h1
            | some x =>
              have h2 := ihI st1 rest j d h1 hd
              rcases hri : readInputs fuel st1 rest with ⟨st2, r2⟩
              rw [hri] at h2
              cases r2 with
              | error e => simp only [hri]; simpa using h2
              | ok xs => simp only [hri]; simpa using h2

/-- A recompute (`_update`) that actually starts (fuel available, the node
is a dependent node) leaves the node with `dirty = false`, whatever else
happens — including every failure mode. -/
theorem recompute_clears_dirty :
    ∀ (fuel : Nat) (V : Type) (st : Heap V) (id : Nat) (d : DepData V),
      1 ≤ fuel → getNode st id = some (.dep d) →
      ∃ d', getNode (depRecompute fuel st id).1 id = some (.dep d') ∧
        d'.isDirty = false := by
  intro fuel V st id d hfuel hget
  match fuel, hfuel with
  | fuel + 1, _ =>
    have hlt : id < st.length := getNode_lt_length hget
    have hst1 : getNode (setNode st id (.dep { d with isDirty := false })) id
        = some (.dep { d with isDirty := false }) :=
      getNode_setNode_self _ hlt
    have hkeep := (clean_preserved fuel V).2.2
      (setNode st id (.dep { d with isDirty := false })) d.inputs id
      { d with isDirty := false } hst1 rfl
    simp only [depRecompute, hget]
    rcases hr : readInputs fuel
        (setNode st id (.dep { d with isDirty := false })) d.inputs
      with ⟨st2, r2⟩
    rw [hr] at hkeep
    cases r2 with
    | error e => exact ⟨_, by simp only [hr]; simpa using hkeep, rfl⟩
    | ok args =>
      have hlt2 : id < st2.length := getNode_lt_length hkeep
      cases hfr : d.f args with
      | throws => exact ⟨_, by simp only [hr, hfr]; simpa using hkeep, rfl⟩
      | ret v =>
        cases v with
        | none =>
          refine ⟨{ d with isDirty := false, value := none }, ?_, rfl⟩
          simp only [hr, hfr]
          simp only [hkeep]
          exact getNode_setNode_self _ hlt2
        | some r =>
          refine ⟨{ d with isDirty := false, value := some r }, ?_, rfl⟩
          simp only [hr, hfr]
          simp only [hkeep]
          exact getNode_setNode_self _ hlt2

/-! ## Claim C8 — idempotence of value() -/

/-- C8: calling `value()` twice with no intervening `update()` returns the
same value both times, and the second read performs no recomputation: it
is served from `cachedValue` because `dirty` is false.  "No
recomputation" is captured by the conclusion in two ways: the second read
succeeds with a single unit of fuel — while any entry into `_update`
consumes further fuel, so the dirty branch was provably not taken and the
compute function was not invoked — and it leaves the heap completely
unchanged.  Hence the compute function runs at most once across the two
calls (at most once inside the first call, never in the second). -/
theorem c8_value_idempotent :
    ∀ (fuel : Nat) (V : Type) (st st' : Heap V) (id : Nat) (v : Option V),
      nodeValue fuel st id = (st', .ok v) → nodeValue 1 st' id = (st', .ok v) := by
  intro fuel V st st' id v h
  match fuel with
  | 0 => simp [nodeValue, Prod.mk.injEq] at h
  | fuel + 1 =>
    cases hget : getNode st id with
    | none => simp [nodeValue, hget, Prod.mk.injEq] at h
    | some n =>
      cases n with
      | inp w o =>
        simp only [nodeValue, hget, Prod.mk.injEq] at h
        obtain ⟨rfl, hv⟩ := h
        injection hv with hv
        subst hv
        simp [nodeValue, hget]
      | dep d =>
        cases hd : d.isDirty with
        | false =>
          simp only [nodeValue, hget, hd, Bool.false_eq_true, if_false,
            Prod.mk.injEq] at h
          obtain ⟨rfl, hv⟩ := h
          injection hv with hv
          subst hv
          simp [nodeValue, hget, hd]
        | true =>
          simp only [nodeValue, hget, hd, if_true] at h
          rcases hr : depRecompute fuel st id with ⟨st1, r⟩
          rw [hr] at h
          cases r with
          | error e => simp [Prod.mk.injEq] at h
          | ok u =>
            match fuel, hr with
            | 0, hr => simp [depRecompute, Prod.mk.injEq] at hr
            | fuel + 1, hr =>
              obtain ⟨d', hd', hclean⟩ :=
                recompute_clears_dirty (fuel + 1) V st id d (by omega) hget
              rw [hr] at hd'
              simp only [hd'] at h
              simp only [Prod.mk.injEq] at h
              obtain ⟨rfl, hv⟩ := h
              injection hv with hv
              subst hv
              simp [nodeValue, hd', hclean]

/-- Witness for C8: reading `y = dataflow(2).then(k => k+4)` computes `6`;
the immediately following read returns `6` again from cache, with one
unit of fuel and an unchanged heap. -/
theorem c8_value_idempotent_witness :
    nodeValue 1 (nodeValue 10 (buildChain (2 : Int) [fun k => k + 4]) 1).1 1 =
      ((nodeValue 10 (buildChain (2 : Int) [fun k => k + 4]) 1).1,
       .ok (some 6)) :=
  c8_value_idempotent 10 Int (buildChain (2 : Int) [fun k => k + 4]) _ 1
    (some 6) rfl

/-! ## Claim C3 — state after a failed recompute -/

/-- C3 (amended): whenever reading a derived node surfaces an error (of
any failure mode: an input's value is the sentinel, the compute function
throws, or the compute result is the sentinel), the node's dirty flag has
already been cleared when the error surfaces, and a subsequent `value()`
call performs no recomputation (it succeeds with a single unit of fuel
and leaves the heap unchanged) and returns the node's **current**
`cachedValue` — which is the stale previous value for the input-sentinel
and compute-throw failure modes, but has been overwritten with the absent
sentinel when the compute function returned the sentinel
(see `c3_counterexample`). -/
theorem c3_failed_recompute_state :
    ∀ (fuel : Nat) (V : Type) (st st' : Heap V) (id : Nat) (d : DepData V)
      (e : Err),
      getNode st id = some (.dep d) →
      nodeValue fuel st id = (st', .error e) → e ≠ .fuelOut →
      ∃ d', getNode st' id = some (.dep d') ∧ d'.isDirty = false ∧
        nodeValue 1 st' id = (st', .ok d'.value) := by
  intro fuel V st st' id d e hget h hne
  match fuel with
  | 0 =>
    simp only [nodeValue, Prod.mk.injEq] at h
    exact absurd (Except.error.inj h.2) (fun he => hne he.symm)
  | fuel + 1 =>
    cases hd : d.isDirty with
    | false =>
      simp [nodeValue, hget, hd, Prod.mk.injEq] at h
    | true =>
      simp only [nodeValue, hget, hd, if_true] at h
      rcases hr : depRecompute fuel st id with ⟨st1, r⟩
      rw [hr] at h
      cases r with
      | error e1 =>
        simp only [Prod.mk.injEq] at h
        obtain ⟨rfl, he⟩ := h
        have he1 : e1 = e := Except.error.inj he
        subst he1
        match fuel, hr with
        | 0, hr =>
          simp only [depRecompute, Prod.mk.injEq] at hr
          exact absurd (Except.error.inj hr.2) (fun hfo => hne hfo.symm)
        | fuel + 1, hr =>
          obtain ⟨d', hd', hclean⟩ :=
            recompute_clears_dirty (fuel + 1) V st id d (by omega) hget
          rw [hr] at hd'
          exact ⟨d', hd', hclean, by simp [nodeValue, hd', hclean]⟩
      | ok u =>
        match fuel, hr with
        | 0, hr => simp [depRecompute, Prod.mk.injEq] at hr
        | fuel + 1, hr =>
          obtain ⟨d', hd', hclean⟩ :=
            recompute_clears_dirty (fuel + 1) V st id d (by omega) hget
          rw [hr] at hd'
          simp only [hd', Prod.mk.injEq] at h
          exact absurd h.2 (fun hcontra => Except.noConfusion hcontra)

/-- Witness for C3 (amended), at the concrete poisoning scenario: the
failing read of `y` leaves it clean and the next read is served without
recomputation. -/
theorem c3_failed_recompute_state_witness :
    ∃ d', getNode cexHeap3 1 = some (.dep d') ∧ d'.isDirty = false ∧
      nodeValue 1 cexHeap3 1 = (cexHeap3, .ok d'.value) :=
  c3_failed_recompute_state 10 Int cexHeap2 cexHeap3 1
    ⟨cexF, [.node 0], [], false, true, some 10⟩ .undefinedValue rfl rfl
    (by decide)

/-! ## Claim C4 — the no-sentinel-value invariant -/

/-- C4 (amended): the observable-value invariant holds for source nodes —
`value()` on an `InputNode` always returns its stored, non-sentinel value
— and every **successful** recompute stores a non-sentinel `cachedValue`.
The invariant fails only through a failed recompute whose compute
function returned the sentinel: that failure overwrites `cachedValue`
with the sentinel before throwing, after which `value()` observably
returns the sentinel (see `c4_counterexample`). -/
theorem c4_no_sentinel_invariant :
    (∀ (V : Type) (st : Heap V) (id : Nat) (w : V) (outs : List Nat)
      (fuel : Nat), 1 ≤ fuel → getNode st id = some (.inp w outs) →
      nodeValue fuel st id = (st, .ok (some w))) ∧
    (∀ (V : Type) (fuel : Nat) (st st' : Heap V) (id : Nat),
      depRecompute fuel st id = (st', .ok ()) →
      ∃ (d' : DepData V) (r : V),
        getNode st' id = some (.dep d') ∧ d'.value = some r) := by
  constructor
  · intro V st id w outs fuel hf hget
    match fuel, hf with
    | fuel + 1, _ => simp [nodeValue, hget]
  · intro V fuel st st' id h
    match fuel with
    | 0 => simp [depRecompute, Prod.mk.injEq] at h
    | fuel + 1 =>
      cases hget : getNode st id with
      | none => simp [depRecompute, hget, Prod.mk.injEq] at h
      | some n =>
        cases n with
        | inp v o => simp [depRecompute, hget, Prod.mk.injEq] at h
        | dep d =>
          simp only [depRecompute, hget] at h
          rcases hr : readInputs fuel
              (setNode st id (.dep { d with isDirty := false })) d.inputs
            with ⟨st2, r2⟩
          rw [hr] at h
          cases r2 with
          | error e => simp [Prod.mk.injEq] at h
          | ok args =>
            dsimp only at h
            cases hfr : d.f args with
            | throws => rw [hfr] at h; simp [Prod.mk.injEq] at h
            | ret v =>
              cases v with
              | none =>
                rw [hfr] at h
                cases hg2 : getNode st2 id with
                | none => simp [hg2, Prod.mk.injEq] at h
                | some n2 =>
                  cases n2 with
                  | inp w o => simp [hg2, Prod.mk.injEq] at h
                  | dep d2 => simp [hg2, Prod.mk.injEq] at h
              | some r =>
                rw [hfr] at h
                cases hg2 : getNode st2 id with
                | none => simp [hg2, Prod.mk.injEq] at h
                | some n2 =>
                  cases n2 with
                  | inp w o => simp [hg2, Prod.mk.injEq] at h
                  | dep d2 =>
                    simp only [hg2, Prod.mk.injEq] at h
                    obtain ⟨hst, _⟩ := h
                    refine ⟨{ d2 with value := some r }, r, ?_, rfl⟩
                    rw [← hst]
                    exact getNode_setNode_self _ (getNode_lt_length hg2)

/-- Witness for C4 (amended): a concrete source read and a concrete
successful recompute. -/
theorem c4_no_sentinel_invariant_witness :
    nodeValue 1 [Node.inp (3 : Int) []] 0 =
      ([Node.inp (3 : Int) []], .ok (some 3)) ∧
    ∃ (d' : DepData Int) (r : Int),
      getNode (depRecompute 5 cexHeap0 1).1 1 = some (.dep d') ∧
      d'.value = some r :=
  ⟨c4_no_sentinel_invariant.1 Int [Node.inp (3 : Int) []] 0 3 [] 1
      (by decide) rfl,
   c4_no_sentinel_invariant.2 Int 5 cexHeap0 (depRecompute 5 cexHeap0 1).1 1
      rfl⟩

/-! ## Claim C6 — eager/lazy mode irrelevance of value()

Two nodes agree modulo mode when they coincide on everything except
(possibly) the `_isEager` flag; two heaps agree modulo mode when they
have the same nodes up to that relation.  Reading a value never consults
`_isEager` — neither `value()` nor `_update()` does — so reads from
mode-agreeing heaps coincide. -/

def modeAgree : Node V → Node V → Prop
  | .inp v o, .inp v' o' => v = v' ∧ o = o'
  | .dep d, .dep d' =>
    d.f = d'.f ∧ d.inputs = d'.inputs ∧ d.outputs = d'.outputs ∧
    d.isDirty = d'.isDirty ∧ d.value = d'.value
  | _, _ => False

def optModeAgree : Option (Node V) → Option (Node V) → Prop
  | none, none => True
  | some a, some b => modeAgree a b
  | _, _ => False

def ModeEq (st st' : Heap V) : Prop :=
  st.length = st'.length ∧ ∀ j, optModeAgree (getNode st j) (getNode st' j)

theorem setNode_of_length_le (st : Heap V) (i : Nat) (n : Node V)
    (h : st.length ≤ i) : setNode st i n = st :=
  List.set_eq_of_length_le h

theorem ModeEq_set {st st' : Heap V} {n n' : Node V} (i : Nat)
    (h : ModeEq st st') (hn : modeAgree n n') :
    ModeEq (setNode st i n) (setNode st' i n') := by
  obtain ⟨hlen, hrel⟩ := h
  refine ⟨by simp [setNode, hlen], ?_⟩
  intro j
  by_cases hij : i = j
  · subst hij
    by_cases hlt : i < st.length
    · rw [getNode_setNode_self n hlt, getNode_setNode_self n' (by omega)]
      exact hn
    · rw [setNode_of_length_le st i n (by omega),
        setNode_of_length_le st' i n' (by omega)]
      exact hrel i
  · rw [getNode_setNode_ne st n hij, getNode_setNode_ne st' n' hij]
    exact hrel j

theorem mode_value_agree :
    ∀ (fuel : Nat) (V : Type),
      (∀ (st st' : Heap V) (id : Nat), ModeEq st st' →
        (nodeValue fuel st id).2 = (nodeValue fuel st' id).2 ∧
        ModeEq (nodeValue fuel st id).1 (nodeValue fuel st' id).1) ∧
      (∀ (st st' : Heap V) (id : Nat), ModeEq st st' →
        (depRecompute fuel st id).2 = (depRecompute fuel st' id).2 ∧
        ModeEq (depRecompute fuel st id).1 (depRecompute fuel st' id).1) ∧
      (∀ (st st' : Heap V) (refs : List (JRef V)), ModeEq st st' →
        (readInputs fuel st refs).2 = (readInputs fuel st' refs).2 ∧
        ModeEq (readInputs fuel st refs).1 (readInputs fuel st' refs).1) := by
  intro fuel
  induction fuel with
  | zero =>
    intro V
    exact ⟨fun st st' id h => ⟨rfl, h⟩, fun st st' id h => ⟨rfl, h⟩,
      fun st st' refs h => ⟨rfl, h⟩⟩
  | succ fuel ih =>
    intro V
    obtain ⟨ihV, ihR, ihI⟩ := ih V
    refine ⟨?_, ?_, ?_⟩
    · -- nodeValue
      intro st st' id h
      have hrel := h.2 id
      cases hg : getNode st id with
      | none =>
        cases hg' : getNode st' id with
        | none =>
          simp only [nodeValue, hg, hg']
          exact ⟨by trivial, h⟩
        | some n' => rw [hg, hg'] at hrel; exact hrel.elim
      | some n =>
        cases hg' : getNode st' id with
        | none => rw [hg, hg'] at hrel; cases n <;> exact hrel.elim
        | some n' =>
          rw [hg, hg'] at hrel
          cases n with
          | inp v o =>
            cases n' with
            | inp v' o' =>
              obtain ⟨hv, ho⟩ := hrel
              subst hv
              simp only [nodeValue, hg, hg']
              exact ⟨by trivial, h⟩
            | dep d' => exact hrel.elim
          | dep d =>
            cases n' with
            | inp v' o' => exact hrel.elim
            | dep d' =>
              obtain ⟨hf, hin, hout, hdirty, hval⟩ := hrel
              cases hd : d.isDirty with
              | false =>
                have hd' : d'.isDirty = false := hdirty ▸ hd
                simp only [nodeValue, hg, hg', hd, hd', Bool.false_eq_true,
                  if_false, hval]
                exact ⟨by trivial, h⟩
              | true =>
                have hd' : d'.isDirty = true := hdirty ▸ hd
                rcases hr : depRecompute fuel st id with ⟨st1, r⟩
                rcases hr' : depRecompute fuel st' id with ⟨st1', r'⟩
                have ih1 := ihR st st' id h
                rw [hr, hr'] at ih1
                obtain ⟨hsnd, hme1⟩ := ih1
                dsimp only at hsnd hme1
                subst hsnd
                simp only [nodeValue, hg, hg', hd, hd', if_true, hr, hr']
                cases r with
                | error e => exact ⟨by trivial, hme1⟩
                | ok u =>
                  have hrel1 := hme1.2 id
                  cases hg1 : getNode st1 id with
                  | none =>
                    cases hg1' : getNode st1' id with
                    | none =>
                      simp only [hg1, hg1']
                      exact ⟨by trivial, hme1⟩
                    | some m' => rw [hg1, hg1'] at hrel1; exact hrel1.elim
                  | some m =>
                    cases hg1' : getNode st1' id with
                    | none => rw [hg1, hg1'] at hrel1; cases m <;> exact hrel1.elim
                    | some m' =>
                      rw [hg1, hg1'] at hrel1
                      cases m with
                      | inp w o =>
                        cases m' with
                        | inp w' o' =>
                          simp only [hg1, hg1']
                          exact ⟨by trivial, hme1⟩
                        | dep d1' => exact hrel1.elim
                      | dep d1 =>
                        cases m' with
                        | inp w' o' => exact hrel1.elim
                        | dep d1' =>
                          have hval1 : d1.value = d1'.value := hrel1.2.2.2.2
                          simp only [hg1, hg1', hval1]
                          exact ⟨by trivial, hme1⟩
    · -- depRecompute
      intro st st' id h
      have hrel := h.2 id
      cases hg : getNode st id with
      | none =>
        cases hg' : getNode st' id with
        | none =>
          simp only [depRecompute, hg, hg']
          exact ⟨by trivial, h⟩
        | some n' => rw [hg, hg'] at hrel; exact hrel.elim
      | some n =>
        cases hg' : getNode st' id with
        | none => rw [hg, hg'] at hrel; cases n <;> exact hrel.elim
        | some n' =>
          rw [hg, hg'] at hrel
          cases n with
          | inp v o =>
            cases n' with
            | inp v' o' =>
              simp only [depRecompute, hg, hg']
              exact ⟨by trivial, h⟩
            | dep d' => exact hrel.elim
          | dep d =>
            cases n' with
            | inp v' o' => exact hrel.elim
            | dep d' =>
              obtain ⟨hf, hin, hout, hdirty, hval⟩ := hrel
              have hme1 : ModeEq (setNode st id (.dep { d with isDirty := false }))
                  (setNode st' id (.dep { d' with isDirty := false })) :=
                ModeEq_set id h ⟨hf, hin, hout, rfl, hval⟩
              rcases hr : readInputs fuel
                  (setNode st id (.dep { d with isDirty := false })) d.inputs
                with ⟨st2, r2⟩
              rcases hr' : readInputs fuel
                  (setNode st' id (.dep { d' with isDirty := false })) d'.inputs
                with ⟨st2', r2'⟩
              have ih1 := ihI (setNode st id (.dep { d with isDirty := false }))
                (setNode st' id (.dep { d' with isDirty := false })) d.inputs hme1
              rw [hr] at ih1
              rw [hin, hr'] at ih1
              obtain ⟨hsnd, hme2⟩ := ih1
              dsimp only at hsnd hme2
              subst hsnd
              simp only [depRecompute, hg, hg', hr, hr']
              cases r2 with
              | error e => exact ⟨by trivial, hme2⟩
              | ok args =>
                have hfeq : d.f args = d'.f args := by rw [hf]
                have hrel2 := hme2.2 id
                cases hfr : d.f args with
                | throws =>
                  have hfr' : d'.f args = .throws := by rw [← hfeq, hfr]
                  simp only [hfr, hfr']
                  exact ⟨by trivial, hme2⟩
                | ret rv =>
                  have hfr' : d'.f args = .ret rv := by rw [← hfeq, hfr]
                  cases rv with
                  | none =>
                    simp only [hfr, hfr']
                    cases hg2 : getNode st2 id with
                    | none =>
                      cases hg2' : getNode st2' id with
                      | none =>
                        simp only [hg2, hg2']
                        exact ⟨by trivial, hme2⟩
                      | some m' => rw [hg2, hg2'] at hrel2; exact hrel2.elim
                    | some m =>
                      cases hg2' : getNode st2' id with
                      | none => rw [hg2, hg2'] at hrel2; cases m <;> exact hrel2.elim
                      | some m' =>
                        rw [hg2, hg2'] at hrel2
                        cases m with
                        | inp w o =>
                          cases m' with
                          | inp w' o' =>
                            simp only [hg2, hg2']
                            exact ⟨by trivial, hme2⟩
                          | dep d2' => exact hrel2.elim
                        | dep d2 =>
                          cases m' with
                          | inp w' o' => exact hrel2.elim
                          | dep d2' =>
                            obtain ⟨hf2, hin2, hout2, hdirty2, hval2⟩ := hrel2
                            simp only [hg2, hg2']
                            exact ⟨by trivial, ModeEq_set id hme2
                              ⟨hf2, hin2, hout2, hdirty2, rfl⟩⟩
                  | some rr =>
                    simp only [hfr, hfr']
                    cases hg2 : getNode st2 id with
                    | none =>
                      cases hg2' : getNode st2' id with
                      | none =>
                        simp only [hg2, hg2']
                        exact ⟨by trivial, hme2⟩
                      | some m' => rw [hg2, hg2'] at hrel2; exact hrel2.elim
                    | some m =>
                      cases hg2' : getNode st2' id with
                      | none => rw [hg2, hg2'] at hrel2; cases m <;> exact hrel2.elim
                      | some m' =>
                        rw [hg2, hg2'] at hrel2
                        cases m with
                        | inp w o =>
                          cases m' with
                          | inp w' o' =>
                            simp only [hg2, hg2']
                            exact ⟨by trivial, hme2⟩
                          | dep d2' => exact hrel2.elim
                        | dep d2 =>
                          cases m' with
                          | inp w' o' => exact hrel2.elim
                          | dep d2' =>
                            obtain ⟨hf2, hin2, hout2, hdirty2, hval2⟩ := hrel2
                            simp only [hg2, hg2']
                            exact ⟨by trivial, ModeEq_set id hme2
                              ⟨hf2, hin2, hout2, hdirty2, rfl⟩⟩
    · -- readInputs
      intro st st' refs h
      cases refs with
      | nil =>
        simp only [readInputs]
        exact ⟨by trivial, h⟩
      | cons r rest =>
        cases r with
        | raw v =>
          simp only [readInputs]
          exact ⟨by trivial, h⟩
        | node i =>
          rcases hv : nodeValue fuel st i with ⟨st1, rv⟩
          rcases hv' : nodeValue fuel st' i with ⟨st1', rv'⟩
          have ih1 := ihV st st' i h
          rw [hv, hv'] at ih1
          obtain ⟨hsnd, hme1⟩ := ih1
          dsimp only at hsnd hme1
          subst hsnd
          simp only [readInputs, hv, hv']
          cases rv with
          | error e => exact ⟨by trivial, hme1⟩
          | ok v =>
            cases v with
            | none => exact ⟨by trivial, hme1⟩
            | some x =>
              rcases hri : readInputs fuel st1 rest with ⟨st2, r2⟩
              rcases hri' : readInputs fuel st1' rest with ⟨st2', r2'⟩
              have ih2 := ihI st1 st1' rest hme1
              rw [hri, hri'] at ih2
              obtain ⟨hsnd2, hme2⟩ := ih2
              dsimp only at hsnd2 hme2
              subst hsnd2
              simp only [hri, hri']
              cases r2 with
              | error e => exact ⟨by trivial, hme2⟩
              | ok xs => exact ⟨by trivial, hme2⟩


/-- C6: for a fixed graph state, `d.value()` returns the same result
whether `d` (or any other node) is in eager or lazy mode at the time of
the read: neither `value()` nor `_update()` ever consults `_isEager`, so
reads from two heaps that agree on everything except mode flags coincide
(with pure compute functions, as built into the model). -/
theorem c6_mode_irrelevant_value :
    ∀ (V : Type) (st st' : Heap V) (id fuel : Nat), ModeEq st st' →
      (nodeValue fuel st id).2 = (nodeValue fuel st' id).2 :=
  fun V st st' id fuel h => ((mode_value_agree fuel V).1 st st' id h).1

/-- A one-derived-node graph in lazy mode. -/
def c6HeapLazy : Heap Int :=
  [.inp 1 [1], .dep ⟨unary (fun x => x + 1), [.node 0], [], false, true, none⟩]

/-- The same graph with the derived node in eager mode. -/
def c6HeapEager : Heap Int :=
  [.inp 1 [1], .dep ⟨unary (fun x => x + 1), [.node 0], [], true, true, none⟩]

/-- Witness for C6 at a concrete eager/lazy heap pair. -/
theorem c6_mode_irrelevant_value_witness :
    (nodeValue 10 c6HeapLazy 1).2 = (nodeValue 10 c6HeapEager 1).2 :=
  c6_mode_irrelevant_value Int c6HeapLazy c6HeapEager 1 10
    ⟨rfl, fun j =>
      match j with
      | 0 => ⟨rfl, rfl⟩
      | 1 => ⟨rfl, rfl, rfl, rfl, rfl⟩
      | _ + 2 => trivial⟩

/-! ## Then-chains

A then-chain is the graph built by `dataflow(v).then(g1).then(g2)...`:
node `0` is the source, node `k+1` is the derived node computing `g (k+1)`
over node `k`, and each node's outputs list is exactly `[k+1]` (or `[]`
for the last node).  `ChainShape` pins the immutable skeleton — values,
functions, wiring — while leaving each derived node's mode, dirty flag
and cache free, so it is invariant under every update/read/lazy/eager
call.  `CleanUpTo` states the correctness of non-dirty caches up to a
given node: a clean derived node caches exactly the composition of the
chain functions applied to the source value. -/

/-- The specification value of chain node `k`: the first `k` chain
functions folded over the source value. -/
def chainVal (v : V) (gs : List (V → V)) (k : Nat) : V :=
  (gs.take k).foldl (fun a g => g a) v

/-- The outputs list of chain node `k` in a chain with `n` derived
nodes. -/
def chainOuts (n k : Nat) : List Nat := if k < n then [k + 1] else []

structure ChainShape (st : Heap V) (v : V) (gs : List (V → V)) : Prop where
  len : st.length = gs.length + 1
  src : getNode st 0 = some (.inp v (chainOuts gs.length 0))
  deps : ∀ k g, gs.get? k = some g →
    ∃ e dty c, getNode st (k + 1) =
      some (.dep ⟨unary g, [.node k], chainOuts gs.length (k + 1), e, dty, c⟩)

/-- Every clean derived node at index `1..k` caches its specification
value. -/
def CleanUpTo (st : Heap V) (v : V) (gs : List (V → V)) (k : Nat) : Prop :=
  ∀ j d, 1 ≤ j → j ≤ k → getNode st j = some (.dep d) → d.isDirty = false →
    d.value = some (chainVal v gs j)

theorem chainVal_zero (v : V) (gs : List (V → V)) : chainVal v gs 0 = v := rfl

theorem chainVal_succ {gs : List (V → V)} {k : Nat} {g : V → V}
    (v : V) (h : gs.get? k = some g) :
    chainVal v gs (k + 1) = g (chainVal v gs k) := by
  have h' : gs[k]? = some g := by rw [← List.get?_eq_getElem?]; exact h
  unfold chainVal
  rw [List.take_succ, h']
  simp [List.foldl_append]

theorem chainShape_set {st : Heap V} {v : V} {gs : List (V → V)}
    (hS : ChainShape st v gs) {k : Nat} {g : V → V}
    (hg : gs.get? k = some g) (e dty : Bool) (c : Option V) :
    ChainShape (setNode st (k + 1)
      (.dep ⟨unary g, [.node k], chainOuts gs.length (k + 1), e, dty, c⟩))
      v gs := by
  have hklen : k < gs.length := by
    have := List.get?_eq_some.mp hg
    exact this.1
  refine ⟨?_, ?_, ?_⟩
  · rw [length_setNode]; exact hS.len
  · rw [getNode_setNode_ne st _ (by omega)]; exact hS.src
  · intro m gm hm
    by_cases hmk : m = k
    · subst hmk
      have hgm : gm = g := by rw [hg] at hm; exact (Option.some.inj hm).symm
      subst hgm
      refine ⟨e, dty, c, ?_⟩
      exact getNode_setNode_self _ (by rw [hS.len]; omega)
    · obtain ⟨e', dty', c', hm'⟩ := hS.deps m gm hm
      exact ⟨e', dty', c', by
        rw [getNode_setNode_ne st _ (by omega)]; exact hm'⟩

theorem chainShape_set_src {st : Heap V} {v : V} {gs : List (V → V)}
    (hS : ChainShape st v gs) (w : V) :
    ChainShape (setNode st 0 (.inp w (chainOuts gs.length 0))) w gs := by
  refine ⟨?_, ?_, ?_⟩
  · rw [length_setNode]; exact hS.len
  · exact getNode_setNode_self _ (by rw [hS.len]; omega)
  · intro m gm hm
    obtain ⟨e', dty', c', hm'⟩ := hS.deps m gm hm
    exact ⟨e', dty', c', by
      rw [getNode_setNode_ne st _ (by omega)]; exact hm'⟩

/-- Reading chain node `k` in any chain state whose clean caches are
correct up to `k` yields the specification value `chainVal v gs k`,
preserves the chain skeleton and cache correctness, and leaves every node
above `k` untouched. -/
theorem chain_value_read :
    ∀ (k : Nat) (V : Type) (st : Heap V) (v : V) (gs : List (V → V)),
      k ≤ gs.length → ChainShape st v gs → CleanUpTo st v gs k →
      ∀ fuel, 3 * k + 1 ≤ fuel →
      ∃ st', nodeValue fuel st k = (st', .ok (some (chainVal v gs k))) ∧
        ChainShape st' v gs ∧ CleanUpTo st' v gs k ∧
        ∀ j, k < j → getNode st' j = getNode st j := by
  intro k
  induction k with
  | zero =>
    intro V st v gs hk hS hC fuel hfuel
    match fuel, hfuel with
    | fuel + 1, _ =>
      refine ⟨st, ?_, hS, hC, fun j hj => rfl⟩
      simp [nodeValue, hS.src, chainVal_zero]
  | succ k ihk =>
    intro V st v gs hk hS hC fuel hfuel
    have hklen : k < gs.length := by omega
    obtain ⟨g, hg⟩ : ∃ g, gs.get? k = some g :=
      ⟨gs.get ⟨k, hklen⟩, List.get?_eq_get hklen⟩
    obtain ⟨e, dty, c, hnode⟩ := hS.deps k g hg
    obtain ⟨f1, rfl⟩ : ∃ f1, fuel = f1 + 1 := ⟨fuel - 1, by omega⟩
    cases dty with
    | false =>
      have hval : c = some (chainVal v gs (k + 1)) :=
        hC (k + 1) _ (by omega) (le_refl _) hnode rfl
      refine ⟨st, ?_, hS, hC, fun j hj => rfl⟩
      simp [nodeValue, hnode, hval]
    | true =>
      obtain ⟨f2, rfl⟩ : ∃ f2, f1 = f2 + 1 := ⟨f1 - 1, by omega⟩
      obtain ⟨f3, rfl⟩ : ∃ f3, f2 = f3 + 1 := ⟨f2 - 1, by omega⟩
      have hlt1 : k + 1 < st.length := by rw [hS.len]; omega
      -- the heap after `_update` clears the dirty flag of node k+1
      have hS1 : ChainShape (setNode st (k + 1)
          (.dep ⟨unary g, [.node k], chainOuts gs.length (k + 1), e, false, c⟩))
          v gs := chainShape_set hS hg e false c
      have hC1 : CleanUpTo (setNode st (k + 1)
          (.dep ⟨unary g, [.node k], chainOuts gs.length (k + 1), e, false, c⟩))
          v gs k := by
        intro j d hj1 hjk hgetj hdirty
        rw [getNode_setNode_ne st _ (by omega)] at hgetj
        exact hC j d hj1 (by omega) hgetj hdirty
      obtain ⟨st2, hv2, hS2, hC2, hunch2⟩ :=
        ihk V (setNode st (k + 1)
          (.dep ⟨unary g, [.node k], chainOuts gs.length (k + 1), e, false, c⟩))
          v gs (by omega) hS1 hC1 f3 (by omega)
      have hget2 : getNode st2 (k + 1) =
          some (.dep ⟨unary g, [.node k], chainOuts gs.length (k + 1), e,
            false, c⟩) := by
        rw [hunch2 (k + 1) (by omega)]
        exact getNode_setNode_self _ hlt1
      have hlt2 : k + 1 < st2.length := getNode_lt_length hget2
      -- the tail of the input-collection loop
      have eTail : readInputs f3 st2 [] = (st2, .ok ([] : List V)) := by
        obtain ⟨f4, rfl⟩ : ∃ f4, f3 = f4 + 1 := ⟨f3 - 1, by omega⟩
        simp [readInputs]
      -- the input-collection loop reads node k
      have eRead : readInputs (f3 + 1) (setNode st (k + 1)
          (.dep ⟨unary g, [.node k], chainOuts gs.length (k + 1), e, false, c⟩))
          [JRef.node k] = (st2, .ok [chainVal v gs k]) := by
        simp only [readInputs, hv2, eTail]
      -- the recompute of node k+1
      have eRec : depRecompute (f3 + 2) st (k + 1) =
          (setNode st2 (k + 1)
            (.dep ⟨unary g, [.node k], chainOuts gs.length (k + 1), e, false,
              some (g (chainVal v gs k))⟩), .ok ()) := by
        simp only [depRecompute, hnode, eRead, unary, hget2]
      -- the read of node k+1
      have hget3 : getNode (setNode st2 (k + 1)
          (.dep ⟨unary g, [.node k], chainOuts gs.length (k + 1), e, false,
            some (g (chainVal v gs k))⟩)) (k + 1) =
          some (.dep ⟨unary g, [.node k], chainOuts gs.length (k + 1), e,
            false, some (g (chainVal v gs k))⟩) :=
        getNode_setNode_self _ hlt2
      have eVal : nodeValue (f3 + 3) st (k + 1) =
          (setNode st2 (k + 1)
            (.dep ⟨unary g, [.node k], chainOuts gs.length (k + 1), e, false,
              some (g (chainVal v gs k))⟩),
           .ok (some (g (chainVal v gs k)))) := by
        simp only [nodeValue, hnode, if_true, eRec, hget3]
      refine ⟨setNode st2 (k + 1)
          (.dep ⟨unary g, [.node k], chainOuts gs.length (k + 1), e, false,
            some (g (chainVal v gs k))⟩), ?_,
        chainShape_set hS2 hg e false (some (g (chainVal v gs k))), ?_, ?_⟩
      · rw [eVal, chainVal_succ v hg]
      · -- caches correct up to k+1
        intro j d hj1 hjk1 hgetj hdirty
        by_cases hj : j = k + 1
        · subst hj
          rw [hget3] at hgetj
          injection hgetj with hgetj
          injection hgetj with hgetj
          rw [← hgetj]
          rw [chainVal_succ v hg]
        · rw [getNode_setNode_ne st2 _ (by omega)] at hgetj
          exact hC2 j d hj1 (by omega) hgetj hdirty
      · -- nodes above k+1 untouched
        intro j hj
        rw [getNode_setNode_ne st2 _ (by omega), hunch2 j (by omega),
          getNode_setNode_ne st _ (by omega)]

theorem readInputs_nil (fuel : Nat) (st : Heap V) (h : 1 ≤ fuel) :
    readInputs fuel st ([] : List (JRef V)) = (st, .ok []) := by
  match fuel, h with
  | fuel + 1, _ => simp [readInputs]

theorem updateOutputs_nil (fuel : Nat) (st : Heap V) (h : 1 ≤ fuel) :
    updateOutputs fuel st [] = (st, .ok ()) := by
  match fuel, h with
  | fuel + 1, _ => simp [updateOutputs]

/-- The notification cascade along a then-chain: `update()` on chain node
`k+1` (with every clean cache below it correct) succeeds, preserves the
chain skeleton, and afterwards **every** clean cache in the chain is
correct — each node from `k+1` on has either been marked dirty or been
eagerly recomputed to its specification value, whatever mix of lazy and
eager modes the nodes are in. -/
theorem chain_update_cascade :
    ∀ (fuel : Nat) (V : Type) (st : Heap V) (v : V) (gs : List (V → V))
      (k : Nat),
      k < gs.length → ChainShape st v gs → CleanUpTo st v gs k →
      2 * (gs.length - k) + 3 * gs.length + 3 ≤ fuel →
      ∃ st', nodeUpdate fuel st (k + 1) none = (st', .ok ()) ∧
        ChainShape st' v gs ∧ CleanUpTo st' v gs gs.length := by
  intro fuel
  induction fuel using Nat.strong_induction_on with
  | _ fuel ih =>
  intro V st v gs k hk hS hC hfuel
  obtain ⟨g, hg⟩ : ∃ g, gs.get? k = some g :=
    ⟨gs.get ⟨k, hk⟩, List.get?_eq_get hk⟩
  obtain ⟨e, dty, c, hnode⟩ := hS.deps k g hg
  have hlt1 : k + 1 < st.length := by rw [hS.len]; omega
  obtain ⟨f3, rfl⟩ : ∃ f3, fuel = f3 + 3 := ⟨fuel - 3, by omega⟩
  cases e with
  | false =>
    -- lazy node: mark dirty, then notify the next node
    have hS1 : ChainShape (setNode st (k + 1)
        (.dep ⟨unary g, [.node k], chainOuts gs.length (k + 1), false, true,
          c⟩)) v gs := chainShape_set hS hg false true c
    have hC1 : CleanUpTo (setNode st (k + 1)
        (.dep ⟨unary g, [.node k], chainOuts gs.length (k + 1), false, true,
          c⟩)) v gs (k + 1) := by
      intro j d hj1 hjk hgetj hdirty
      by_cases hj : j = k + 1
      · subst hj
        rw [getNode_setNode_self _ hlt1] at hgetj
        injection hgetj with h'
        injection h' with h''
        rw [← h''] at hdirty
        simp at hdirty
      · rw [getNode_setNode_ne st _ (by omega)] at hgetj
        exact hC j d hj1 (by omega) hgetj hdirty
    by_cases hkn : k + 1 < gs.length
    · obtain ⟨st2, heq2, hS2, hC2⟩ := ih (f3 + 1) (by omega) V
        (setNode st (k + 1)
          (.dep ⟨unary g, [.node k], chainOuts gs.length (k + 1), false, true,
            c⟩)) v gs (k + 1) hkn hS1 hC1 (by omega)
      refine ⟨st2, ?_, hS2, hC2⟩
      have hout : chainOuts gs.length (k + 1) = [k + 1 + 1] := by
        simp [chainOuts, hkn]
      rw [hout] at heq2
      simp only [nodeUpdate, hnode, Bool.false_eq_true, if_false, hout]
      simp only [updateOutputs, heq2]
    · have hkn' : k + 1 = gs.length := by omega
      have hout : chainOuts gs.length (k + 1) = [] := by
        simp [chainOuts, hkn]
      refine ⟨_, ?_, hS1, ?_⟩
      · simp only [nodeUpdate, hnode, Bool.false_eq_true, if_false, hout,
          updateOutputs]
      · intro j d hj1 hjk hgetj hdirty
        exact hC1 j d hj1 (by omega) hgetj hdirty
  | true =>
    -- eager node: mark dirty, recompute at once, then notify
    have hS1 : ChainShape (setNode st (k + 1)
        (.dep ⟨unary g, [.node k], chainOuts gs.length (k + 1), true, true,
          c⟩)) v gs := chainShape_set hS hg true true c
    have hget1 : getNode (setNode st (k + 1)
        (.dep ⟨unary g, [.node k], chainOuts gs.length (k + 1), true, true,
          c⟩)) (k + 1) =
        some (.dep ⟨unary g, [.node k], chainOuts gs.length (k + 1), true,
          true, c⟩) := getNode_setNode_self _ hlt1
    have hlt1' : k + 1 < (setNode st (k + 1)
        (.dep ⟨unary g, [.node k], chainOuts gs.length (k + 1), true, true,
          c⟩)).length := by rw [length_setNode]; exact hlt1
    have hS1' : ChainShape (setNode (setNode st (k + 1)
        (.dep ⟨unary g, [.node k], chainOuts gs.length (k + 1), true, true, c⟩))
        (k + 1)
        (.dep ⟨unary g, [.node k], chainOuts gs.length (k + 1), true, false,
          c⟩)) v gs := chainShape_set hS1 hg true false c
    have hC1' : CleanUpTo (setNode (setNode st (k + 1)
        (.dep ⟨unary g, [.node k], chainOuts gs.length (k + 1), true, true, c⟩))
        (k + 1)
        (.dep ⟨unary g, [.node k], chainOuts gs.length (k + 1), true, false,
          c⟩)) v gs k := by
      intro j d hj1 hjk hgetj hdirty
      rw [getNode_setNode_ne _ _ (by omega),
        getNode_setNode_ne st _ (by omega)] at hgetj
      exact hC j d hj1 hjk hgetj hdirty
    obtain ⟨st2, hv2, hS2, hC2, hunch2⟩ :=
      chain_value_read k V _ v gs (by omega) hS1' hC1' f3 (by omega)
    have hget2 : getNode st2 (k + 1) =
        some (.dep ⟨unary g, [.node k], chainOuts gs.length (k + 1), true,
          false, c⟩) := by
      rw [hunch2 (k + 1) (by omega)]
      exact getNode_setNode_self _ hlt1'
    have hlt2 : k + 1 < st2.length := getNode_lt_length hget2
    have eRead : readInputs (f3 + 1) (setNode (setNode st (k + 1)
        (.dep ⟨unary g, [.node k], chainOuts gs.length (k + 1), true, true, c⟩))
        (k + 1)
        (.dep ⟨unary g, [.node k], chainOuts gs.length (k + 1), true, false,
          c⟩)) [JRef.node k] = (st2, .ok [chainVal v gs k]) := by
      simp only [readInputs, hv2, readInputs_nil f3 st2 (by omega)]
    have eRec : depRecompute (f3 + 2) (setNode st (k + 1)
        (.dep ⟨unary g, [.node k], chainOuts gs.length (k + 1), true, true, c⟩))
        (k + 1) =
        (setNode st2 (k + 1)
          (.dep ⟨unary g, [.node k], chainOuts gs.length (k + 1), true, false,
            some (g (chainVal v gs k))⟩), .ok ()) := by
      simp only [depRecompute, hget1, eRead, unary, hget2]
    have hS3 : ChainShape (setNode st2 (k + 1)
        (.dep ⟨unary g, [.node k], chainOuts gs.length (k + 1), true, false,
          some (g (chainVal v gs k))⟩)) v gs :=
      chainShape_set hS2 hg true false (some (g (chainVal v gs k)))
    have hC3 : CleanUpTo (setNode st2 (k + 1)
        (.dep ⟨unary g, [.node k], chainOuts gs.length (k + 1), true, false,
          some (g (chainVal v gs k))⟩)) v gs (k + 1) := by
      intro j d hj1 hjk hgetj hdirty
      by_cases hj : j = k + 1
      · subst hj
        rw [getNode_setNode_self _ hlt2] at hgetj
        injection hgetj with h'
        injection h' with h''
        rw [← h'', chainVal_succ v hg]
      · rw [getNode_setNode_ne st2 _ (by omega)] at hgetj
        exact hC2 j d hj1 (by omega) hgetj hdirty
    by_cases hkn : k + 1 < gs.length
    · obtain ⟨st4, heq4, hS4, hC4⟩ := ih (f3 + 1) (by omega) V
        (setNode st2 (k + 1)
          (.dep ⟨unary g, [.node k], chainOuts gs.length (k + 1), true, false,
            some (g (chainVal v gs k))⟩)) v gs (k + 1) hkn hS3 hC3 (by omega)
      refine ⟨st4, ?_, hS4, hC4⟩
      have hout : chainOuts gs.length (k + 1) = [k + 1 + 1] := by
        simp [chainOuts, hkn]
      rw [hout] at heq4
      rw [hout] at eRec
      simp only [nodeUpdate, hnode, if_true, hout, eRec]
      simp only [updateOutputs, heq4]
    · have hkn' : k + 1 = gs.length := by omega
      have hout : chainOuts gs.length (k + 1) = [] := by
        simp [chainOuts, hkn]
      rw [hout] at eRec
      refine ⟨_, ?_, hS3, ?_⟩
      · simp only [nodeUpdate, hnode, if_true, hout, eRec, updateOutputs]
      · intro j d hj1 hjk hgetj hdirty
        exact hC3 j d hj1 (by omega) hgetj hdirty

/-! ## Claim C1 — update propagation along then-chains -/

/-- C1: in every graph built by then-chaining pure compute functions off a
source node — whatever mix of lazy and eager modes its nodes are in and
whatever dirty flags and caches they currently hold — `a.update(w)` with
a non-sentinel `w` succeeds, and afterwards every derived node `d`
reachable from the source returns from `d.value()` exactly the
recomputation of its compute chain over the new value
(`chainVal w gs k`).  In particular, for
`x = dataflow(2); y = x.then(k => k+4); z = y.then(k => k*111)`, after
`x.update(3)`, `z.value()` is `777`. -/
theorem c1_update_propagation :
    (∀ (V : Type) (st : Heap V) (v w : V) (gs : List (V → V)),
      ChainShape st v gs →
      ∀ fuel, 5 * gs.length + 5 ≤ fuel →
      ∃ st', nodeUpdate fuel st 0 (some w) = (st', .ok ()) ∧
        ∀ k, 1 ≤ k → k ≤ gs.length →
        ∀ fuel2, 3 * k + 1 ≤ fuel2 →
          (nodeValue fuel2 st' k).2 = .ok (some (chainVal w gs k))) ∧
    (nodeValue 20 (nodeUpdate 20
        (buildChain (2 : Int) [fun k => k + 4, fun k => k * 111]) 0
        (some 3)).1 2).2 = .ok (some 777) := by
  constructor
  · intro V st v w gs hS fuel hfuel
    obtain ⟨f4, rfl⟩ : ∃ f4, fuel = f4 + 3 := ⟨fuel - 3, by omega⟩
    have hsrc := hS.src
    have hS1 : ChainShape (setNode st 0 (.inp w (chainOuts gs.length 0))) w gs :=
      chainShape_set_src hS w
    by_cases hn : 0 < gs.length
    · have hout : chainOuts gs.length 0 = [1] := by simp [chainOuts, hn]
      have hC1 : CleanUpTo (setNode st 0 (.inp w (chainOuts gs.length 0)))
          w gs 0 := by
        intro j d hj1 hjk _ _
        omega
      obtain ⟨st2, heq2, hS2, hC2⟩ := chain_update_cascade (f4 + 1) V
        (setNode st 0 (.inp w (chainOuts gs.length 0))) w gs 0 hn hS1 hC1
        (by omega)
      simp only [Nat.zero_add] at heq2
      rw [hout] at heq2
      refine ⟨st2, ?_, ?_⟩
      · simp only [nodeUpdate, hsrc, hout]
        simp only [updateOutputs, heq2]
      · intro k hk1 hkn2 fuel2 hfuel2
        have hCk : CleanUpTo st2 w gs k := by
          intro j d hj1 hjk hgetj hdirty
          exact hC2 j d hj1 (by omega) hgetj hdirty
        obtain ⟨st3, hv3, _, _, _⟩ :=
          chain_value_read k V st2 w gs hkn2 hS2 hCk fuel2 hfuel2
        rw [hv3]
    · have hglen : gs.length = 0 := by omega
      have hout : chainOuts gs.length 0 = [] := by simp [chainOuts, hglen]
      refine ⟨setNode st 0 (.inp w (chainOuts gs.length 0)), ?_, ?_⟩
      · simp only [nodeUpdate, hsrc, hout, updateOutputs]
      · intro k hk1 hkn2 _ _
        omega
  · rfl

/-- The `x = dataflow(2); y = x.then(k => k+4); z = y.then(k => k*111)`
chain. -/
def c1Chain : Heap Int := buildChain 2 [fun k => k + 4, fun k => k * 111]

/-- Witness for C1: on the concrete 2-link chain, `x.update(3)` succeeds
and both derived nodes read back their recomputed values. -/
theorem c1_update_propagation_witness :
    ∃ st', nodeUpdate 20 c1Chain 0 (some 3) = (st', .ok ()) ∧
      ∀ k, 1 ≤ k →
        k ≤ ([fun k => k + 4, fun k => k * 111] : List (Int → Int)).length →
        ∀ fuel2, 3 * k + 1 ≤ fuel2 →
          (nodeValue fuel2 st' k).2 =
            .ok (some (chainVal 3 [fun k => k + 4, fun k => k * 111] k)) :=
  c1_update_propagation.1 Int c1Chain 2 3 [fun k => k + 4, fun k => k * 111]
    ⟨rfl, rfl, fun k g hg =>
      match k, hg with
      | 0, hg => ⟨false, true, none, by
          rw [show g = fun k => k + 4 from (Option.some.inj hg).symm]; rfl⟩
      | 1, hg => ⟨false, true, none, by
          rw [show g = fun k => k * 111 from (Option.some.inj hg).symm]; rfl⟩
      | k + 2, hg => Option.noConfusion hg⟩
    20 (by decide)

/-! ## Claim C7 — then composes in application order -/

/-- The freshly built two-link chain has the chain skeleton. -/
theorem chainShape_two (v : V) (f g : V → V) :
    ChainShape (buildChain v [f, g]) v [f, g] :=
  ⟨rfl, rfl, fun k gk hg =>
    match k, hg with
    | 0, hg => ⟨false, true, none, by
        rw [show gk = f from (Option.some.inj hg).symm]; rfl⟩
    | 1, hg => ⟨false, true, none, by
        rw [show gk = g from (Option.some.inj hg).symm]; rfl⟩
    | k + 2, hg => Option.noConfusion hg⟩

/-- C7: for every source value `v` and pure unary functions `f` and `g`,
`a.then(f).then(g).value()` equals `g(f(a.value()))` — and `a.value()`
is `v`, so the chained read is `g (f v)`: derivation via `then` composes
the functions in application order. -/
theorem c7_then_composition :
    ∀ (V : Type) (v : V) (f g : V → V) (fuel : Nat), 7 ≤ fuel →
      (nodeValue fuel (buildChain v [f, g]) 2).2 = .ok (some (g (f v))) ∧
      (nodeValue fuel (buildChain v [f, g]) 0).2 = .ok (some v) := by
  intro V v f g fuel hfuel
  have hS := chainShape_two v f g
  have hC : CleanUpTo (buildChain v [f, g]) v [f, g] 2 := by
    intro j d hj1 hjk hgetj hdirty
    match j, hj1, hjk with
    | 1, _, _ =>
      have h0 : getNode (buildChain v [f, g]) 1 =
          some (.dep ⟨unary f, [.node 0], [2], false, true, none⟩) := rfl
      rw [h0] at hgetj
      injection hgetj with h'
      injection h' with h''
      rw [← h''] at hdirty
      simp at hdirty
    | 2, _, _ =>
      have h0 : getNode (buildChain v [f, g]) 2 =
          some (.dep ⟨unary g, [.node 1], [], false, true, none⟩) := rfl
      rw [h0] at hgetj
      injection hgetj with h'
      injection h' with h''
      rw [← h''] at hdirty
      simp at hdirty
  obtain ⟨st', hv, _, _, _⟩ :=
    chain_value_read 2 V (buildChain v [f, g]) v [f, g] (by simp) hS hC
      fuel hfuel
  refine ⟨?_, ?_⟩
  · rw [hv]; rfl
  · obtain ⟨f1, rfl⟩ : ∃ f1, fuel = f1 + 1 := ⟨fuel - 1, by omega⟩
    rfl

/-- Witness for C7 at `v = 2`, `f = (+4)`, `g = (*111)`. -/
theorem c7_then_composition_witness :
    (nodeValue 7 (buildChain (2 : Int) [fun k => k + 4, fun k => k * 111]) 2).2
        = .ok (some 666) ∧
    (nodeValue 7 (buildChain (2 : Int) [fun k => k + 4, fun k => k * 111]) 0).2
        = .ok (some 2) :=
  c7_then_composition Int 2 (fun k => k + 4) (fun k => k * 111) 7 (by omega)

/-! ## Claim C2 — destroy -/

/-- C2 counterexample: on the tutorial graph (`x = dataflow(2)` with one
derived output `x => x*x`), `x.destroy()` raises `NotImplementedError` and
leaves the heap untouched — nothing is destroyed, no `NodeDestroyedError`
exists, and `NotImplementedError` is reachable from the shipped core
(the tutorial itself asserts `/not implemented/`). -/
theorem c2_counterexample :
    destroyOp (buildChain (2 : Int) [fun x => x * x]) 0 =
      (buildChain (2 : Int) [fun x => x * x], .error .notImplemented) ∧
    Err.notImplemented ≠ Err.nodeDestroyed :=
  ⟨rfl, by decide⟩

/-- C2 (amended): `destroy()` is unimplemented in the shipped core:
`DataflowNode.prototype.destroy` unconditionally throws
`NotImplementedError`, performs no recursive destruction (the heap is
unchanged), and `NodeDestroyedError` is never raised. -/
theorem c2_destroy_throws_not_implemented :
    ∀ (V : Type) (st : Heap V) (id : Nat),
      destroyOp st id = (st, .error .notImplemented) :=
  fun _ _ _ => rfl

/-! ## Claim C5 — raw inputs are not promoted -/

/-- C5: evaluating the code at the failing input
`new DependentNode(f, [5])`.  Because `util.isNode` is the constant-true
stub, the raw element `5` is treated as a node: it is pushed into
`_inputs` and `5._addOutput(this)` immediately raises a TypeError
(`methodMissing`).  No `SourceNode` is ever created — the promotion
branch of the constructor is dead code, contradicting both the spec and
the constructor's own `// will fail on input === undefined` wrapping
branch. -/
theorem c5_raw_input_not_wrapped :
    (mkDependentNode 10 ([] : Heap Int) c5f (.arr [.raw (some 5)]) false).2 =
      .error .methodMissing ∧
    hasSourceNode
      (mkDependentNode 10 ([] : Heap Int) c5f (.arr [.raw (some 5)]) false).1 =
      false :=
  ⟨rfl, rfl⟩

/-! ## Claim C9 — removeOutput -/

/-- C9 counterexample: on a node whose outputs list is `[1, 1]`,
`removeOutput(1)` leaves `[]` — underscore's `without` removes **every**
identity match, not just the first, so the later duplicate does not
remain as the claim states. -/
theorem c9_counterexample :
    getNode (nodeRemoveOutput c9Heap 0 1).1 0 = some (.inp 5 []) ∧
    ([] : List Nat) ≠ [1] :=
  ⟨rfl, by decide⟩

/-- C9 (amended): for every node, `removeOutput(r)` replaces the outputs
list by its copy with **every** identity match of `r` removed
(underscore's `without`), and is a no-op leaving outputs unchanged when
`r` is absent. -/
theorem c9_remove_output_all_matches :
    ∀ (V : Type) (st : Heap V) (id : Nat) (n : Node V) (out : Nat),
      getNode st id = some n →
      nodeRemoveOutput st id out =
        (setNode st id (setOutputs n (without (outputsOf n) out)), .ok ()) ∧
      (out ∉ outputsOf n → without (outputsOf n) out = outputsOf n) := by
  intro V st id n out h
  have hfilter : out ∉ outputsOf n → without (outputsOf n) out = outputsOf n := by
    intro hmem
    apply List.filter_eq_self.mpr
    intro a ha
    simp only [ne_eq, decide_eq_true_eq]
    intro hax
    exact hmem (hax ▸ ha)
  cases n with
  | inp v o =>
    refine ⟨?_, hfilter⟩
    simp only [nodeRemoveOutput, h, setOutputs, outputsOf]
  | dep d =>
    refine ⟨?_, hfilter⟩
    simp only [nodeRemoveOutput, h, setOutputs, outputsOf]

/-- Witness for C9 (amended): a concrete instance with `r` absent. -/
theorem c9_remove_output_all_matches_witness :
    nodeRemoveOutput ([Node.inp (5 : Int) [1]]) 0 2 =
      (setNode [Node.inp (5 : Int) [1]] 0
        (setOutputs (Node.inp (5 : Int) [1]) (without [1] 2)), .ok ()) ∧
    (2 ∉ outputsOf (Node.inp (5 : Int) [1]) → without [1] 2 = [1]) :=
  c9_remove_output_all_matches Int [Node.inp (5 : Int) [1]] 0
    (Node.inp (5 : Int) [1]) 2 rfl

/-! ## Claim C10 — failed source update mutates nothing -/

/-- C10: when `update(newValue)` on a source node is called with the
absent-value sentinel, the `failOnUndefinedValue` check precedes every
mutation and notification: `UndefinedValueError` surfaces with the heap
completely unchanged — `currentValue` keeps its previous value, the
outputs list is unmodified, and no output node has been notified (no
node in the heap, of any kind, is touched). -/
theorem c10_update_sentinel_unchanged :
    ∀ (V : Type) (st : Heap V) (id : Nat) (v : V) (outs : List Nat)
      (fuel : Nat), 1 ≤ fuel → getNode st id = some (.inp v outs) →
      nodeUpdate fuel st id none = (st, .error .undefinedValue) := by
  intro V st id v outs fuel hfuel h
  match fuel, hfuel with
  | fuel + 1, _ => simp only [nodeUpdate, h]

/-- Witness for C10 at a concrete source node. -/
theorem c10_update_sentinel_unchanged_witness :
    nodeUpdate 1 [Node.inp (7 : Int) [3, 4]] 0 none =
      ([Node.inp (7 : Int) [3, 4]], .error .undefinedValue) :=
  c10_update_sentinel_unchanged Int [Node.inp (7 : Int) [3, 4]] 0 7 [3, 4] 1
    (by decide) rfl

/-! ## Counterexamples for C3 and C4 (cache poisoning) -/

/-- C3 counterexample: `y` caches `10`; after `x.update(2)` the recompute
of `y` fails with `UndefinedValueError` because `cexF [2]` returns the
sentinel.  The subsequent `y.value()` performs no recomputation (it
succeeds with a single unit of fuel, i.e. without ever entering
`_update`, and leaves the heap unchanged) but returns the sentinel —
**not** the previously cached value `10`: the failed recompute had
already overwritten the cache with `undefined`. -/
theorem c3_counterexample :
    (nodeValue 10 cexHeap0 1).2 = .ok (some 10) ∧
    (nodeValue 10 cexHeap2 1).2 = .error .undefinedValue ∧
    nodeValue 1 cexHeap3 1 = (cexHeap3, .ok none) ∧
    some (10 : Int) ≠ (none : Option Int) :=
  ⟨rfl, rfl, rfl, by decide⟩

/-- C4 counterexample: after the failed recompute of `y` (its compute
function returned the sentinel and the caller caught the
`UndefinedValueError`), the node is clean (`dirty = false`) with
`cachedValue` equal to the absent sentinel, and `y.value()` observably
returns the sentinel — the claimed invariant fails. -/
theorem c4_counterexample :
    (nodeValue 1 cexHeap3 1).2 = .ok none ∧
    getNode cexHeap3 1 = some (.dep ⟨cexF, [.node 0], [], false, false, none⟩) :=
  ⟨rfl, rfl⟩

end Dataflow
